import Mathlib

/-!
CppHeaderPreComp: the include inliner of `CHPC.cpp`.

A shallow embedding of the class `FileIterator` of `src/CHPC.cpp` and of the
string and stream operations it calls, followed by theorems about
`splitLines`, `readFile`, `loadHeaders` and `main`.

* A `std::string` is a list of characters (`Str`).
* The file system is a parameter (`Env`): which paths an `std::ifstream`
  opens and what it then reads, and which paths an `std::ofstream` opens.
* An object of the class is a value of `FileIterator`; a member function takes
  the object and returns the object it leaves behind.
* An operation that can throw returns an `Option`, `none` being the exception.
-/

namespace CHPC

/-- A `std::string`: its characters in order. -/
abbrev Str := List Char

/-- The line terminator `'\n'`. -/
def newline : Char := Char.ofNat 10

/-- The carriage return `'\r'`. -/
def carriageReturn : Char := Char.ofNat 13

/-- The double quote `'"'`. -/
def dquote : Char := Char.ofNat 34

/-- The literal `"#include"` searched for by `loadHeaders`. -/
def includeMarker : Str := "#include".toList

/-- The literal `"// Error: Could not include "` of `loadHeaders`. -/
def errorPrefix : Str := "// Error: Could not include ".toList

/-- What the program sees of the file system. `openRead p` is `none` when
`std::ifstream file(p)` is not open, and otherwise the characters that
`buffer << file.rdbuf()` reads. `openWrite p` tells whether
`std::ofstream outputFile(p)` is open. -/
structure Env where
  openRead : Str → Option Str
  openWrite : Str → Bool

/-- The data members of `class FileIterator`. -/
structure FileIterator where
  fileLines : List Str
  fileContents : Str
  result : List Str

/-- Does `s` begin with `needle`? (the comparison `std::string::find` makes at
one position) -/
def startsWith : Str → Str → Bool
  | _, [] => true
  | [], _ :: _ => false
  | c :: cs, n :: ns => c == n && startsWith cs ns

/-- `s.find(needle)` counted from position `pos` of the whole string: the
lowest position at which `needle` occurs, `none` for `npos`. -/
def findFrom (needle : Str) : Str → Nat → Option Nat
  | [], pos => if startsWith [] needle then some pos else none
  | c :: cs, pos =>
    if startsWith (c :: cs) needle then some pos else findFrom needle cs (pos + 1)

/-- `s.find(needle)` for a string `needle`. -/
def find (s needle : Str) : Option Nat := findFrom needle s 0

/-- `s.find(ch)` for a character: the index of the first `ch`, `none` for
`npos`. -/
def findChar : Str → Char → Option Nat
  | [], _ => none
  | c :: cs, ch =>
    if c = ch then some 0
    else match findChar cs ch with
      | some i => some (i + 1)
      | none => none

/-- `s.rfind(ch)` for a character: the index of the last `ch`, `none` for
`npos`. -/
def rfindChar : Str → Char → Option Nat
  | [], _ => none
  | c :: cs, ch =>
    match rfindChar cs ch with
    | some i => some (i + 1)
    | none => if c = ch then some 0 else none

/-- `s.substr(pos, len)`: throws `std::out_of_range` (`none`) when
`pos > s.size()`, and otherwise is the characters from `pos` on, at most `len`
of them. -/
def substr (s : Str) (pos len : Nat) : Option Str :=
  if pos > s.length then none else some ((s.drop pos).take len)

/-- The loop `while (std::getline(sStream, line)) fileLines.push_back(line);`
run on the characters still unread in the stream; `line` holds the characters
extracted so far by the current call of `std::getline`, and the value is the
list of lines pushed, in order.

`std::getline` extracts characters up to the next `'\n'`, which it removes from
the stream and does not store. At the end of the stream the call succeeds if it
extracted at least one character and fails (ending the loop) if it extracted
none. -/
def getlineLoop : Str → Str → List Str
  | [], line => if line = [] then [] else [line]
  | c :: cs, line =>
    if c = newline then line :: getlineLoop cs []
    else getlineLoop cs (line ++ [c])

/-- `FileIterator::splitLines`: the lines of `fileContents` are pushed onto the
back of `fileLines`. -/
def splitLines (self : FileIterator) : FileIterator :=
  { self with fileLines := self.fileLines ++ getlineLoop self.fileContents [] }

/-- `FileIterator::readFile`: the empty string when the file is not open, the
whole content otherwise. -/
def readFile (env : Env) (filePath : Str) : Str :=
  match env.openRead filePath with
  | none => []
  | some content => content

/-- The constructor `FileIterator(filePath)`: the members are default
initialised (empty), and `fileContents` receives the content of the file when
it opens. -/
def FileIterator.ctor (env : Env) (filePath : Str) : FileIterator :=
  match env.openRead filePath with
  | none => { fileLines := [], fileContents := [], result := [] }
  | some content => { fileLines := [], fileContents := content, result := [] }

/-- The state the `for` loop of `loadHeaders` changes: the member `result`, and
the header paths handed to `readFile` so far (a record of the reads, not a
variable of the program). -/
structure LoopState where
  result : List Str
  lookups : List Str

/-- One iteration of `for (const std::string& line : this->fileLines)`. -/
def loopBody (env : Env) (st : LoopState) (line : Str) : Option LoopState :=
  if (find line includeMarker).isSome then
    let open_quote := findChar line dquote
    let close_quote := rfindChar line dquote
    match open_quote, close_quote with
    | some o, some c =>
      if o < c then
        match substr line (o + 1) (c - o - 1) with
        | none => none
        | some headerFilePath =>
          let headerContent := readFile env headerFilePath
          let lookups := st.lookups ++ [headerFilePath]
          if headerContent ≠ [] then
            some { result := st.result ++ [headerContent], lookups := lookups }
          else
            some { result := st.result ++ [errorPrefix ++ headerFilePath], lookups := lookups }
      else
        some { st with result := st.result ++ [line] }
    | _, _ => some { st with result := st.result ++ [line] }
  else
    some { st with result := st.result ++ [line] }

/-- The whole `for` loop over the lines. -/
def forLoop (env : Env) : List Str → LoopState → Option LoopState
  | [], st => some st
  | line :: rest, st =>
    match loopBody env st line with
    | none => none
    | some st1 => forLoop env rest st1

/-- The loop `for (resultLine : this->result) outputFile << resultLine << "\n";`
started with `written` already in the file. -/
def writeLoop : List Str → Str → Str
  | [], written => written
  | resultLine :: rest, written => writeLoop rest (written ++ resultLine ++ [newline])

/-- What a call of `loadHeaders` leaves behind: the object, the header paths
that were handed to `readFile`, and the text written to the output file
(`none` when the output file did not open, so that nothing was written). -/
structure Outcome where
  self : FileIterator
  lookups : List Str
  written : Option Str

/-- `FileIterator::loadHeaders(outputFilePath)`; `none` is an exception leaving
the function. -/
def loadHeaders (env : Env) (self : FileIterator) (outputFilePath : Str) : Option Outcome :=
  let self1 := splitLines self
  match forLoop env self1.fileLines { result := self1.result, lookups := [] } with
  | none => none
  | some st =>
    let self2 : FileIterator := { self1 with result := st.result }
    if env.openWrite outputFilePath then
      some { self := self2, lookups := st.lookups, written := some (writeLoop self2.result []) }
    else
      some { self := self2, lookups := st.lookups, written := none }

/-- The header path that `loadHeaders` extracts from a line: `some path` when
the line passes both tests of the loop (the marker is found, both quotes are
found and the first lies before the last), `none` when the line is kept. -/
def directivePath (line : Str) : Option Str :=
  if (find line includeMarker).isSome then
    match findChar line dquote, rfindChar line dquote with
    | some o, some c => if o < c then some ((line.drop (o + 1)).take (c - o - 1)) else none
    | _, _ => none
  else none

/-- The element that one iteration of the loop pushes onto `result` for a
line. -/
def lineResult (env : Env) (line : Str) : Str :=
  match directivePath line with
  | none => line
  | some headerFilePath =>
    if readFile env headerFilePath ≠ [] then readFile env headerFilePath
    else errorPrefix ++ headerFilePath

/-- A file system for examples: the listed files open for reading with the
given content, every other path does not open; every output path opens. -/
def envOf (files : List (String × String)) : Env where
  openRead p := (files.lookup (String.mk p)).map String.toList
  openWrite _ := true

/-- The file system `env` with the file `path` holding `content`. -/
def withFile (env : Env) (path content : Str) : Env where
  openRead p := if p = path then some content else env.openRead p
  openWrite := env.openWrite

/-- The file system used in the worked examples. -/
def demoEnv : Env := envOf [
  ("main.cpp", "#include \"a.h\"\nint main()\x7b\x7d"),
  ("a.h", "void f();"),
  ("missing.cpp", "#include \"missing.h\""),
  ("angle.cpp", "#include <vector>\nint x;\n"),
  ("useempty.cpp", "int y;\n#include \"empty.h\"\n"),
  ("nested.cpp", "#include \"outer.h\"\n"),
  ("outer.h", "#include \"b.h\"\nint o;\n"),
  ("b.h", "int b;\n"),
  ("crlf.cpp", "a\r\nb\r\n")]

/-- What a run of the program leaves behind: the value returned by `main`, the
paths on which an `std::ifstream` was constructed (in order), the path on which
the `std::ofstream` was constructed (`none` when none was), and the text
written to the output file (`none` when nothing was written). The messages on
`std::cerr` and `std::cout` are not recorded. -/
structure Run where
  exitCode : Nat
  opened : List Str
  outputPath : Option Str
  written : Option Str
  deriving DecidableEq

/-- The function `main(argc, argv)`, with `argc = argv.length`; `none` is an
exception leaving `main`. -/
def main (env : Env) (argv : List Str) : Option Run :=
  if argv.length < 2 then
    some { exitCode := 1, opened := [], outputPath := none, written := none }
  else
    let inputFilePath := argv.getD 1 []
    let outputFilePath := if argv.length > 2 then argv.getD 2 [] else "output.cpp".toList
    let fIterator := FileIterator.ctor env inputFilePath
    match loadHeaders env fIterator outputFilePath with
    | none => none
    | some out =>
      some { exitCode := 0, opened := inputFilePath :: out.lookups,
             outputPath := some outputFilePath, written := out.written }

/-- The worked file system with one more source file, `reversed.cpp`, whose
only line has its quoted path before the marker. -/
def reversedEnv : Env :=
  withFile demoEnv "reversed.cpp".toList "\"a.h\" #include\n".toList

/-- The worked file system with one more source file, `quotes.cpp`, whose only
line has three double quotes, and the header `a"b` it names. -/
def quotesEnv : Env :=
  withFile (withFile demoEnv "quotes.cpp".toList "#include \"a\"b\" // x\n".toList)
    "a\"b".toList "int q;\n".toList

/-- The worked file system with one more source file, `trailing.cpp`, which
includes `b.h` (content `int b;\n`) between two plain lines. -/
def trailingEnv : Env :=
  withFile demoEnv "trailing.cpp".toList "int p;\n#include \"b.h\"\nint r;\n".toList

/-- The worked file system in which no output file opens. -/
def readOnlyEnv : Env where
  openRead := demoEnv.openRead
  openWrite _ := false

/-! ## Strings: `find`, `rfind`, `substr` -/

theorem startsWith_iff (s needle : Str) : startsWith s needle = true ↔ needle <+: s := by
  induction s generalizing needle with
  | nil => cases needle <;> simp [startsWith]
  | cons c cs ih =>
    cases needle with
    | nil => simp [startsWith]
    | cons n ns =>
      simp only [startsWith, Bool.and_eq_true, beq_iff_eq, ih, List.cons_prefix_cons]
      constructor
      · rintro ⟨h1, h2⟩; exact ⟨h1.symm, h2⟩
      · rintro ⟨h1, h2⟩; exact ⟨h1.symm, h2⟩

theorem findFrom_eq_none (needle s : Str) (pos : Nat) :
    findFrom needle s pos = none ↔ ¬ needle <:+: s := by
  induction s generalizing pos with
  | nil =>
    simp only [findFrom]
    by_cases h : startsWith [] needle = true
    · simp only [h, if_true]
      have := (startsWith_iff [] needle).1 h
      simp [this.isInfix]
    · simp only [h]
      have h2 : ¬ needle <+: [] := fun hp => h ((startsWith_iff [] needle).2 hp)
      simp only [List.prefix_nil] at h2
      simp [List.infix_nil, h2]
  | cons c cs ih =>
    simp only [findFrom]
    by_cases h : startsWith (c :: cs) needle = true
    · simp only [h, if_true]
      have := (startsWith_iff (c :: cs) needle).1 h
      simp [this.isInfix]
    · have h2 : ¬ needle <+: c :: cs := fun hp => h ((startsWith_iff (c :: cs) needle).2 hp)
      rw [if_neg h, ih]
      simp [List.infix_cons_iff, h2]

/-- `find` returns `npos` exactly when the needle does not occur in the string. -/
theorem find_eq_none_iff (s needle : Str) : find s needle = none ↔ ¬ needle <:+: s :=
  findFrom_eq_none needle s 0

theorem find_isSome_iff (s needle : Str) : (find s needle).isSome = true ↔ needle <:+: s := by
  rw [← not_iff_not, ← find_eq_none_iff]
  cases find s needle <;> simp

theorem findChar_eq_none (s : Str) (ch : Char) : findChar s ch = none ↔ ch ∉ s := by
  induction s with
  | nil => simp [findChar]
  | cons c cs ih =>
    simp only [findChar, List.mem_cons, not_or]
    by_cases h : c = ch
    · simp [h]
    · simp only [h, if_false]
      cases hf : findChar cs ch with
      | none => simp [Ne.symm h, ih.1 hf]
      | some i =>
        constructor
        · intro h0; cases h0
        · rintro ⟨_, hc⟩
          rw [ih.2 hc] at hf
          cases hf

theorem rfindChar_eq_none (s : Str) (ch : Char) : rfindChar s ch = none ↔ ch ∉ s := by
  induction s with
  | nil => simp [rfindChar]
  | cons c cs ih =>
    simp only [rfindChar, List.mem_cons, not_or]
    cases hf : rfindChar cs ch with
    | none =>
      have := ih.1 hf
      by_cases h : c = ch
      · simp [h]
      · simp [h, Ne.symm h, this]
    | some i =>
      constructor
      · intro h0; cases h0
      · rintro ⟨_, hc⟩
        rw [ih.2 hc] at hf
        cases hf

theorem findChar_lt (s : Str) (ch : Char) (o : Nat) (h : findChar s ch = some o) :
    o < s.length := by
  induction s generalizing o with
  | nil => simp [findChar] at h
  | cons c cs ih =>
    simp only [findChar] at h
    by_cases hc : c = ch
    · simp only [hc, if_true, Option.some.injEq] at h
      subst h; simp
    · simp only [hc, if_false] at h
      cases hf : findChar cs ch with
      | none => simp [hf] at h
      | some i =>
        simp only [hf, Option.some.injEq] at h
        subst h
        have := ih i hf
        simp only [List.length_cons]; omega

/-- The first quote of `pre ++ '"' :: rest` is at `pre.length` when `pre` has
no quote. -/
theorem findChar_append (pre rest : Str) (ch : Char) (h : ch ∉ pre) :
    findChar (pre ++ ch :: rest) ch = some pre.length := by
  induction pre with
  | nil => simp [findChar]
  | cons c cs ih =>
    simp only [List.mem_cons, not_or] at h
    simp [findChar, Ne.symm h.1, ih h.2]

/-- The last quote of `front ++ '"' :: suf` is at `front.length` when `suf` has
no quote. -/
theorem rfindChar_append (front suf : Str) (ch : Char) (h : ch ∉ suf) :
    rfindChar (front ++ ch :: suf) ch = some front.length := by
  induction front with
  | nil => simp [rfindChar, (rfindChar_eq_none suf ch).2 h]
  | cons c cs ih => simp [rfindChar, ih]

/-- With at most one occurrence of the character, the first and the last
occurrence are the same position. -/
theorem find_eq_rfind_of_count_le_one (s : Str) (ch : Char) (o c : Nat)
    (hcount : s.count ch ≤ 1) (ho : findChar s ch = some o) (hc : rfindChar s ch = some c) :
    o = c := by
  induction s generalizing o c with
  | nil => simp [findChar] at ho
  | cons x xs ih =>
    by_cases hx : x = ch
    · subst hx
      have h0 : xs.count x = 0 := by
        simp only [List.count_cons_self] at hcount; omega
      have hnot : x ∉ xs := List.count_eq_zero.1 h0
      simp only [findChar, if_true, Option.some.injEq] at ho
      simp only [rfindChar, (rfindChar_eq_none xs x).2 hnot, if_true, Option.some.injEq] at hc
      omega
    · have hcount2 : xs.count ch ≤ 1 := by
        rw [List.count_cons_of_ne (Ne.symm hx)] at hcount; exact hcount
      simp only [findChar, hx, if_false] at ho
      simp only [rfindChar] at hc
      cases hf : findChar xs ch with
      | none => simp [hf] at ho
      | some o1 =>
        cases hr : rfindChar xs ch with
        | none => simp [hr, hx] at hc
        | some c1 =>
          simp only [hf, Option.some.injEq] at ho
          simp only [hr, Option.some.injEq] at hc
          have := ih o1 c1 hcount2 hf hr
          omega

/-! ## The line splitter -/

theorem getlineLoop_no_newline (s line : Str) (h : newline ∉ line) :
    ∀ l ∈ getlineLoop s line, newline ∉ l := by
  induction s generalizing line with
  | nil =>
    intro l hl
    simp only [getlineLoop] at hl
    by_cases he : line = []
    · simp [he] at hl
    · simp only [he, if_false, List.mem_singleton] at hl
      subst hl; exact h
  | cons c cs ih =>
    intro l hl
    simp only [getlineLoop] at hl
    by_cases hc : c = newline
    · simp only [hc, if_true, List.mem_cons] at hl
      rcases hl with hl | hl
      · subst hl; exact h
      · exact ih [] (by simp) l hl
    · simp only [hc, if_false] at hl
      refine ih (line ++ [c]) ?_ l hl
      simp only [List.mem_append, List.mem_singleton, not_or]
      exact ⟨h, fun e => hc e.symm⟩

/-- A terminated line at the front of the stream is stored without its
`'\n'`, and the loop goes on with the rest. -/
theorem getlineLoop_append (pre rest line : Str) (h : newline ∉ pre) :
    getlineLoop (pre ++ newline :: rest) line = (line ++ pre) :: getlineLoop rest [] := by
  induction pre generalizing line with
  | nil => simp [getlineLoop]
  | cons c cs ih =>
    simp only [List.mem_cons, not_or] at h
    have hc : ¬ c = newline := fun e => h.1 e.symm
    simp [getlineLoop, hc, ih (line ++ [c]) h.2]

/-- Lines each terminated by `\r\n`: every stored line is the text of the
line followed by the `\r`. -/
theorem getlineLoop_crlf (ls : List Str) (h : ∀ l ∈ ls, newline ∉ l) :
    getlineLoop (ls.map (fun l => l ++ [carriageReturn, newline])).flatten []
      = ls.map (fun l => l ++ [carriageReturn]) := by
  induction ls with
  | nil => simp [getlineLoop]
  | cons l rest ih =>
    have hl : newline ∉ l ++ [carriageReturn] := by
      simp only [List.mem_append, List.mem_singleton, not_or]
      exact ⟨h l (by simp), by decide⟩
    have hsplit : ((l :: rest).map (fun l => l ++ [carriageReturn, newline])).flatten
        = (l ++ [carriageReturn]) ++
          newline :: (rest.map (fun l => l ++ [carriageReturn, newline])).flatten := by
      simp
    rw [hsplit, getlineLoop_append _ _ _ hl, ih (fun x hx => h x (by simp [hx]))]
    simp

/-! ## The loops of `loadHeaders` -/

theorem loopBody_eq (env : Env) (st : LoopState) (line : Str) :
    loopBody env st line =
      some { result := st.result ++ [lineResult env line],
             lookups := st.lookups ++ (directivePath line).toList } := by
  unfold loopBody lineResult directivePath
  by_cases hm : (find line includeMarker).isSome = true
  · simp only [hm, if_true]
    cases ho : findChar line dquote with
    | none => simp
    | some o =>
      cases hc : rfindChar line dquote with
      | none => simp
      | some c =>
        by_cases hlt : o < c
        · have hlen := findChar_lt line dquote o ho
          have hsub : substr line (o + 1) (c - o - 1)
              = some ((line.drop (o + 1)).take (c - o - 1)) := by
            unfold substr
            rw [if_neg (by omega)]
          simp only [hlt, if_true, hsub]
          by_cases he : readFile env ((line.drop (o + 1)).take (c - o - 1)) = []
          · simp [he]
          · simp [he]
        · simp [hlt]
  · simp [hm]

theorem forLoop_eq (env : Env) (lines : List Str) (st : LoopState) :
    forLoop env lines st =
      some { result := st.result ++ lines.map (lineResult env),
             lookups := st.lookups ++ (lines.filterMap directivePath) } := by
  induction lines generalizing st with
  | nil => simp [forLoop]
  | cons line rest ih =>
    simp only [forLoop, loopBody_eq, ih, List.map_cons, List.filterMap_cons]
    cases directivePath line <;> simp

theorem writeLoop_eq (rs : List Str) (written : Str) :
    writeLoop rs written = written ++ (rs.map (fun r => r ++ [newline])).flatten := by
  induction rs generalizing written with
  | nil => simp [writeLoop]
  | cons r rest ih => simp [writeLoop, ih]

/-- `loadHeaders` returns, and what it leaves behind is given line by line. -/
theorem loadHeaders_eq (env : Env) (self : FileIterator) (outputFilePath : Str) :
    loadHeaders env self outputFilePath =
      some {
        self := {
          fileLines := self.fileLines ++ getlineLoop self.fileContents []
          fileContents := self.fileContents
          result := self.result ++
            (self.fileLines ++ getlineLoop self.fileContents []).map (lineResult env) }
        lookups := (self.fileLines ++ getlineLoop self.fileContents []).filterMap directivePath
        written :=
          if env.openWrite outputFilePath then
            some ((self.result ++
              (self.fileLines ++ getlineLoop self.fileContents []).map (lineResult env)).map
                (fun r => r ++ [newline])).flatten
          else none } := by
  unfold loadHeaders splitLines
  simp only [forLoop_eq, writeLoop_eq, List.nil_append]
  by_cases hw : env.openWrite outputFilePath = true <;> simp [hw]

theorem ctor_fileLines (env : Env) (p : Str) : (FileIterator.ctor env p).fileLines = [] := by
  unfold FileIterator.ctor; cases env.openRead p <;> rfl

theorem ctor_result (env : Env) (p : Str) : (FileIterator.ctor env p).result = [] := by
  unfold FileIterator.ctor; cases env.openRead p <;> rfl

theorem ctor_fileContents (env : Env) (p : Str) :
    (FileIterator.ctor env p).fileContents = readFile env p := by
  unfold FileIterator.ctor readFile; cases env.openRead p <;> rfl

/-- A first call of `loadHeaders` on a freshly constructed object. -/
theorem loadHeaders_ctor (env : Env) (inputFilePath outputFilePath : Str) :
    loadHeaders env (FileIterator.ctor env inputFilePath) outputFilePath =
      some {
        self := {
          fileLines := getlineLoop (readFile env inputFilePath) []
          fileContents := readFile env inputFilePath
          result := (getlineLoop (readFile env inputFilePath) []).map (lineResult env) }
        lookups := (getlineLoop (readFile env inputFilePath) []).filterMap directivePath
        written :=
          if env.openWrite outputFilePath then
            some (((getlineLoop (readFile env inputFilePath) []).map (lineResult env)).map
                (fun r => r ++ [newline])).flatten
          else none } := by
  rw [loadHeaders_eq, ctor_fileLines, ctor_result, ctor_fileContents]
  simp

theorem splitLines_ctor (env : Env) (p : Str) :
    (splitLines (FileIterator.ctor env p)).fileLines = getlineLoop (readFile env p) [] := by
  unfold splitLines
  simp [ctor_fileLines, ctor_fileContents]

/-! ## Dependence on the file system -/

theorem lineResult_congr (env1 env2 : Env) (h : ∀ p, readFile env1 p = readFile env2 p)
    (line : Str) : lineResult env1 line = lineResult env2 line := by
  unfold lineResult
  cases directivePath line with
  | none => rfl
  | some p => simp only [h p]

theorem loadHeaders_congr (env1 env2 : Env) (h : ∀ p, readFile env1 p = readFile env2 p)
    (hw : env1.openWrite = env2.openWrite) (inputFilePath outputFilePath : Str) :
    loadHeaders env1 (FileIterator.ctor env1 inputFilePath) outputFilePath
      = loadHeaders env2 (FileIterator.ctor env2 inputFilePath) outputFilePath := by
  have hl : lineResult env1 = lineResult env2 := funext (lineResult_congr env1 env2 h)
  rw [loadHeaders_ctor, loadHeaders_ctor, h inputFilePath, hl, hw]

/-! ## Lines that are kept, lines that are replaced -/

theorem directivePath_of_not_marker (line : Str) (h : ¬ includeMarker <:+: line) :
    directivePath line = none := by
  have : find line includeMarker = none := (find_eq_none_iff line includeMarker).2 h
  simp [directivePath, this]

theorem directivePath_of_count_le_one (line : Str) (h : line.count dquote ≤ 1) :
    directivePath line = none := by
  unfold directivePath
  split
  · cases ho : findChar line dquote with
    | none => simp
    | some o =>
      cases hc : rfindChar line dquote with
      | none => simp
      | some c =>
        have := find_eq_rfind_of_count_le_one line dquote o c h ho hc
        simp [this]
  · rfl

/-- A line of the shape `pre "path" suf`, the quotes shown being its first and
its last, that contains the marker: the extracted path is `path`. -/
theorem directivePath_of_shape (line pre path suf : Str)
    (hmarker : includeMarker <:+: line)
    (hshape : line = pre ++ dquote :: path ++ dquote :: suf)
    (hpre : dquote ∉ pre) (hsuf : dquote ∉ suf) :
    directivePath line = some path := by
  have hm : (find line includeMarker).isSome = true := (find_isSome_iff _ _).2 hmarker
  have ho : findChar line dquote = some pre.length := by
    rw [hshape, List.append_assoc]
    exact findChar_append pre _ dquote hpre
  have hc : rfindChar line dquote = some (pre.length + 1 + path.length) := by
    have := rfindChar_append (pre ++ dquote :: path) suf dquote hsuf
    have hl : (pre ++ dquote :: path).length = pre.length + 1 + path.length := by
      simp only [List.length_append, List.length_cons]; omega
    rw [hl] at this
    rw [hshape]
    simpa using this
  have hdrop : (line.drop (pre.length + 1)).take (pre.length + 1 + path.length - pre.length - 1)
      = path := by
    have h1 : line = (pre ++ [dquote]) ++ (path ++ dquote :: suf) := by
      rw [hshape]; simp
    have h2 : (pre ++ [dquote]).length = pre.length + 1 := by simp
    have h3 : pre.length + 1 + path.length - pre.length - 1 = path.length := by omega
    rw [h3, h1, ← h2, List.drop_left, List.take_left]
  unfold directivePath
  simp only [hm, if_true, ho, hc]
  rw [if_pos (by omega), hdrop]

theorem mem_getlineLoop_no_newline (s l : Str) (h : l ∈ getlineLoop s []) : newline ∉ l :=
  getlineLoop_no_newline s [] (by simp) l h

/-! ## Quote positions -/

theorem rfindChar_lt (s : Str) (ch : Char) (c : Nat) (h : rfindChar s ch = some c) :
    c < s.length := by
  induction s generalizing c with
  | nil => simp [rfindChar] at h
  | cons x xs ih =>
    simp only [rfindChar] at h
    cases hr : rfindChar xs ch with
    | none =>
      simp only [hr] at h
      by_cases hx : x = ch
      · simp only [hx, if_true, Option.some.injEq] at h
        subst h; simp
      · simp [hx] at h
    | some c1 =>
      simp only [hr, Option.some.injEq] at h
      subst h
      have := ih c1 hr
      simp only [List.length_cons]; omega

/-- The last occurrence of a character that occurs. -/
theorem exists_last_occurrence (s : Str) (ch : Char) (h : ch ∈ s) :
    ∃ front suf, s = front ++ ch :: suf ∧ ch ∉ suf := by
  have hr : ch ∈ s.reverse := List.mem_reverse.2 h
  obtain ⟨as, bs, hsplit, hnot⟩ := List.eq_append_cons_of_mem hr
  refine ⟨bs.reverse, as.reverse, ?_, ?_⟩
  · have := congrArg List.reverse hsplit
    simpa using this
  · simpa using hnot

/-- A line with at least two double quotes has the shape `pre "path" suf`, the
quotes shown being its first and its last. -/
theorem exists_quote_shape (line : Str) (ch : Char) (h : 2 ≤ line.count ch) :
    ∃ pre path suf, line = pre ++ ch :: path ++ ch :: suf ∧ ch ∉ pre ∧ ch ∉ suf := by
  have hmem : ch ∈ line := List.count_pos_iff.1 (by omega)
  obtain ⟨pre, rest, hsplit, hpre⟩ := List.eq_append_cons_of_mem hmem
  have hcount : rest.count ch = line.count ch - 1 := by
    rw [hsplit, List.count_append, List.count_cons_self, List.count_eq_zero.2 hpre]
    omega
  have hmem2 : ch ∈ rest := List.count_pos_iff.1 (by omega)
  obtain ⟨path, suf, hsplit2, hsuf⟩ := exists_last_occurrence rest ch hmem2
  refine ⟨pre, path, suf, ?_, hpre, hsuf⟩
  rw [hsplit, hsplit2]
  simp

/-- The loop treats a line as a directive exactly when it contains the marker
and at least two double quotes. -/
theorem directivePath_isSome_iff (line : Str) :
    (directivePath line).isSome = true ↔ includeMarker <:+: line ∧ 2 ≤ line.count dquote := by
  constructor
  · intro h
    constructor
    · by_contra hm
      rw [directivePath_of_not_marker line hm] at h
      simp at h
    · by_contra hc
      rw [directivePath_of_count_le_one line (by omega)] at h
      simp at h
  · rintro ⟨hm, hc⟩
    obtain ⟨pre, path, suf, hshape, hpre, hsuf⟩ := exists_quote_shape line dquote hc
    rw [directivePath_of_shape line pre path suf hm hshape hpre hsuf]
    rfl

/-! ## Splitting and joining -/

theorem mem_getlineLoop_infix (s line l : Str) (h : l ∈ getlineLoop s line) :
    l <:+: line ++ s := by
  induction s generalizing line with
  | nil =>
    simp only [getlineLoop] at h
    by_cases he : line = []
    · simp [he] at h
    · simp only [he, if_false, List.mem_singleton] at h
      subst h; simp
  | cons c cs ih =>
    simp only [getlineLoop] at h
    by_cases hc : c = newline
    · simp only [hc, if_true, List.mem_cons] at h
      rcases h with h | h
      · subst h
        exact (List.prefix_append _ _).isInfix
      · have h1 := ih [] h
        simp only [List.nil_append] at h1
        have h2 : cs <:+: line ++ c :: cs := by
          have : line ++ c :: cs = (line ++ [c]) ++ cs := by simp
          rw [this]
          exact (List.suffix_append _ _).isInfix
        exact h1.trans h2
    · simp only [hc, if_false] at h
      have h1 := ih (line ++ [c]) h
      simpa using h1

/-- The lines of a text, each followed by a newline and joined again: the text
itself when it is empty or ends with a newline, the text with one newline
appended otherwise. -/
theorem join_getlineLoop (s line : Str) :
    ((getlineLoop s line).map (fun r => r ++ [newline])).flatten
      = if (s = [] ∧ line = []) ∨ s.getLast? = some newline then line ++ s
        else line ++ s ++ [newline] := by
  induction s generalizing line with
  | nil =>
    by_cases he : line = []
    · simp [getlineLoop, he]
    · simp [getlineLoop, he]
  | cons c cs ih =>
    simp only [getlineLoop]
    by_cases hc : c = newline
    · simp only [hc, if_true, List.map_cons, List.flatten_cons, ih []]
      cases cs with
      | nil => simp
      | cons d ds =>
        by_cases hl : (d :: ds).getLast? = some newline
        · simp [List.getLast?_cons_cons, hl]
        · simp [List.getLast?_cons_cons, hl]
    · simp only [hc, if_false, ih (line ++ [c])]
      cases cs with
      | nil => simp [hc]
      | cons d ds => simp [List.getLast?_cons_cons]

/-- A text without a newline is extracted as one line, unless nothing at all
is extracted. -/
theorem getlineLoop_of_no_newline (s line : Str) (h : newline ∉ s) :
    getlineLoop s line = if line ++ s = [] then [] else [line ++ s] := by
  induction s generalizing line with
  | nil => simp [getlineLoop]
  | cons c cs ih =>
    simp only [List.mem_cons, not_or] at h
    have hc : ¬ c = newline := fun e => h.1 e.symm
    simp only [getlineLoop, hc, if_false, ih (line ++ [c]) h.2]
    simp

/-- The stored lines of a text given as terminated lines followed by a last
piece without terminator: the lines, and the last piece when it is not empty. -/
theorem getlineLoop_join (ls : List Str) (last : Str) (hls : ∀ l ∈ ls, newline ∉ l)
    (hlast : newline ∉ last) :
    getlineLoop ((ls.map (fun l => l ++ [newline])).flatten ++ last) []
      = ls ++ (if last = [] then [] else [last]) := by
  induction ls with
  | nil =>
    simp only [List.map_nil, List.flatten_nil, List.nil_append]
    rw [getlineLoop_of_no_newline last [] hlast]
    simp
  | cons l rest ih =>
    have hsplit : ((l :: rest).map (fun l => l ++ [newline])).flatten ++ last
        = l ++ newline :: ((rest.map (fun l => l ++ [newline])).flatten ++ last) := by
      simp
    rw [hsplit, getlineLoop_append l _ [] (hls l (by simp)),
      ih (fun x hx => hls x (by simp [hx]))]
    simp

/-- A document without the marker: every line is kept. -/
theorem map_lineResult_of_plain (env : Env) (contents : Str)
    (hplain : ¬ includeMarker <:+: contents) :
    (getlineLoop contents []).map (lineResult env) = getlineLoop contents [] := by
  have hid : ∀ l ∈ getlineLoop contents [], lineResult env l = l := by
    intro l hl
    have hinf : l <:+: contents := by
      simpa using mem_getlineLoop_infix contents [] l hl
    have hnot : ¬ includeMarker <:+: l := fun hm => hplain (hm.trans hinf)
    simp [lineResult, directivePath_of_not_marker l hnot]
  calc (getlineLoop contents []).map (lineResult env)
      = (getlineLoop contents []).map id := List.map_congr_left hid
    _ = getlineLoop contents [] := List.map_id _

/-- A list cut around its element at position `i`. -/
theorem split_at_index (xs : List Str) (i : Nat) (x : Str) (h : xs[i]? = some x) :
    xs = xs.take i ++ x :: xs.drop (i + 1) := by
  obtain ⟨hi, hx⟩ := List.getElem?_eq_some.1 h
  calc xs = xs.take i ++ xs.drop i := (List.take_append_drop i xs).symm
    _ = xs.take i ++ x :: xs.drop (i + 1) := by
      rw [List.drop_eq_getElem_cons hi, hx]

/-! ## The function `main` -/

/-- With at least one positional argument `main` returns 0 after the call of
`loadHeaders`. -/
theorem main_eq (env : Env) (argv : List Str) (h : 2 ≤ argv.length) :
    main env argv =
      some {
        exitCode := 0
        opened := argv.getD 1 [] ::
          (getlineLoop (readFile env (argv.getD 1 [])) []).filterMap directivePath
        outputPath := some (if argv.length > 2 then argv.getD 2 [] else "output.cpp".toList)
        written :=
          if env.openWrite (if argv.length > 2 then argv.getD 2 [] else "output.cpp".toList) then
            some (((getlineLoop (readFile env (argv.getD 1 [])) []).map (lineResult env)).map
              (fun r => r ++ [newline])).flatten
          else none } := by
  have hnot : ¬ argv.length < 2 := by omega
  simp only [main, hnot, if_false, loadHeaders_ctor]

/-! ## The claims -/

/-- C1: every line of the split document that does not contain `#include` is
mapped by `loadHeaders` to a result element equal to that line, at the same
position of the result sequence (for every input text and file system). -/
theorem plain_line_kept (env : Env) (inputFilePath outputFilePath : Str) (i : Nat) (line : Str)
    (hline : (splitLines (FileIterator.ctor env inputFilePath)).fileLines[i]? = some line)
    (hplain : ¬ includeMarker <:+: line) :
    ∃ out, loadHeaders env (FileIterator.ctor env inputFilePath) outputFilePath = some out ∧
      out.self.fileLines[i]? = some line ∧ out.self.result[i]? = some line := by
  rw [splitLines_ctor] at hline
  refine ⟨_, loadHeaders_ctor env inputFilePath outputFilePath, hline, ?_⟩
  simp [List.getElem?_map, hline, lineResult, directivePath_of_not_marker line hplain]

/-- Witness of C1: line 1 (`int main(){}`) of `main.cpp` is kept. -/
theorem plain_line_kept_witness :
    ∃ out, loadHeaders demoEnv (FileIterator.ctor demoEnv "main.cpp".toList) "out.cpp".toList
        = some out ∧
      out.self.fileLines[1]? = some "int main()\x7b\x7d".toList ∧
      out.self.result[1]? = some "int main()\x7b\x7d".toList :=
  plain_line_kept demoEnv "main.cpp".toList "out.cpp".toList 1 "int main()\x7b\x7d".toList
    (by decide) ((find_eq_none_iff _ _).1 (by decide))

/-- C2: a line that contains `#include` anywhere and whose first double quote
lies strictly before its last one, the file named by the text between them
opening with non-empty content: the result element at the position of the
line is that content, character for character. -/
theorem quoted_include_inlined (env : Env) (inputFilePath outputFilePath : Str) (i : Nat)
    (line pre path suf content : Str)
    (hline : (splitLines (FileIterator.ctor env inputFilePath)).fileLines[i]? = some line)
    (hmarker : includeMarker <:+: line)
    (hshape : line = pre ++ dquote :: path ++ dquote :: suf)
    (hpre : dquote ∉ pre) (hsuf : dquote ∉ suf)
    (hopen : env.openRead path = some content) (hne : content ≠ []) :
    ∃ out, loadHeaders env (FileIterator.ctor env inputFilePath) outputFilePath = some out ∧
      out.self.result[i]? = some content := by
  rw [splitLines_ctor] at hline
  refine ⟨_, loadHeaders_ctor env inputFilePath outputFilePath, ?_⟩
  have hp := directivePath_of_shape line pre path suf hmarker hshape hpre hsuf
  have hrf : readFile env path = content := by simp [readFile, hopen]
  simp [List.getElem?_map, hline, lineResult, hp, hrf, hne]

/-- Witness of C2: line 0 of `main.cpp` is replaced by the content of `a.h`. -/
theorem quoted_include_inlined_witness :
    ∃ out, loadHeaders demoEnv (FileIterator.ctor demoEnv "main.cpp".toList) "out.cpp".toList
        = some out ∧
      out.self.result[0]? = some "void f();".toList :=
  quoted_include_inlined demoEnv "main.cpp".toList "out.cpp".toList 0
    "#include \"a.h\"".toList "#include ".toList "a.h".toList [] "void f();".toList
    (by decide) ((find_isSome_iff _ _).1 (by decide)) (by decide) (by decide) (by decide)
    (by decide) (by decide)

/-- C3: a directive line whose quoted path names a file that cannot be opened:
the result element at its position is the error comment
`// Error: Could not include ` followed by the extracted path, and it holds no
newline character, so it is a single line. -/
theorem missing_header_error_line (env : Env) (inputFilePath outputFilePath : Str) (i : Nat)
    (line pre path suf : Str)
    (hline : (splitLines (FileIterator.ctor env inputFilePath)).fileLines[i]? = some line)
    (hmarker : includeMarker <:+: line)
    (hshape : line = pre ++ dquote :: path ++ dquote :: suf)
    (hpre : dquote ∉ pre) (hsuf : dquote ∉ suf)
    (hmissing : env.openRead path = none) :
    ∃ out, loadHeaders env (FileIterator.ctor env inputFilePath) outputFilePath = some out ∧
      out.self.result[i]? = some (errorPrefix ++ path) ∧
      newline ∉ errorPrefix ++ path := by
  rw [splitLines_ctor] at hline
  refine ⟨_, loadHeaders_ctor env inputFilePath outputFilePath, ?_, ?_⟩
  · have hp := directivePath_of_shape line pre path suf hmarker hshape hpre hsuf
    have hrf : readFile env path = [] := by simp [readFile, hmissing]
    simp [List.getElem?_map, hline, lineResult, hp, hrf]
  · have hl : newline ∉ line :=
      mem_getlineLoop_no_newline _ line (List.getElem?_mem hline)
    have hpath : newline ∉ path := by
      intro hin
      apply hl
      rw [hshape]
      simp [hin]
    have herr : newline ∉ errorPrefix := by decide
    simp only [List.mem_append, not_or]
    exact ⟨herr, hpath⟩

/-- Witness of C3: the input `#include "missing.h"`, the file `missing.h` not
opening, gives the one-line output
`// Error: Could not include missing.h`. -/
theorem missing_header_error_line_witness :
    (∃ out, loadHeaders demoEnv (FileIterator.ctor demoEnv "missing.cpp".toList)
        "out.cpp".toList = some out ∧
      out.self.result[0]? = some (errorPrefix ++ "missing.h".toList) ∧
      newline ∉ errorPrefix ++ "missing.h".toList) ∧
    (loadHeaders demoEnv (FileIterator.ctor demoEnv "missing.cpp".toList)
        "out.cpp".toList).map (fun out => out.written)
      = some (some "// Error: Could not include missing.h\n".toList) :=
  ⟨missing_header_error_line demoEnv "missing.cpp".toList "out.cpp".toList 0
      "#include \"missing.h\"".toList "#include ".toList "missing.h".toList []
      (by decide) ((find_isSome_iff _ _).1 (by decide)) (by decide) (by decide) (by decide)
      (by decide),
    by decide⟩

/-- C4: a line that contains `#include` and has no double quote, or exactly
one: the result element at its position is the line unchanged, and the
iteration of the loop on that line hands no path to `readFile` (the record of
lookups is left as it was). -/
theorem unquoted_include_kept (env : Env) (inputFilePath outputFilePath : Str) (i : Nat)
    (line : Str)
    (hline : (splitLines (FileIterator.ctor env inputFilePath)).fileLines[i]? = some line)
    (_hmarker : includeMarker <:+: line)
    (hquotes : line.count dquote ≤ 1) :
    (∃ out, loadHeaders env (FileIterator.ctor env inputFilePath) outputFilePath = some out ∧
      out.self.result[i]? = some line) ∧
    ∀ st : LoopState, loopBody env st line
      = some { result := st.result ++ [line], lookups := st.lookups } := by
  have hp := directivePath_of_count_le_one line hquotes
  rw [splitLines_ctor] at hline
  refine ⟨⟨_, loadHeaders_ctor env inputFilePath outputFilePath, ?_⟩, ?_⟩
  · simp [List.getElem?_map, hline, lineResult, hp]
  · intro st
    rw [loopBody_eq]
    simp [lineResult, hp]

/-- Witness of C4: the angle-bracket line `#include <vector>` is kept and no
file is looked up for it. -/
theorem unquoted_include_kept_witness :
    (∃ out, loadHeaders demoEnv (FileIterator.ctor demoEnv "angle.cpp".toList)
        "out.cpp".toList = some out ∧
      out.self.result[0]? = some "#include <vector>".toList) ∧
    ∀ st : LoopState, loopBody demoEnv st "#include <vector>".toList
      = some { result := st.result ++ ["#include <vector>".toList], lookups := st.lookups } :=
  unquoted_include_kept demoEnv "angle.cpp".toList "out.cpp".toList 0
    "#include <vector>".toList (by decide) ((find_isSome_iff _ _).1 (by decide)) (by decide)

/-- C5: a referenced header that opens but is empty gives the same result as
one that cannot be opened. For two file systems that differ only in that
`path` is missing in one and an empty file in the other, `loadHeaders` produces
equal outcomes, and a directive line naming `path` gets the error comment
carrying `path` in both. -/
theorem empty_header_same_as_missing (envMissing envEmpty : Env) (path : Str)
    (inputFilePath outputFilePath : Str)
    (hmissing : envMissing.openRead path = none)
    (hempty : envEmpty.openRead path = some [])
    (hsame : ∀ p, p ≠ path → envMissing.openRead p = envEmpty.openRead p)
    (hwrite : envMissing.openWrite = envEmpty.openWrite) :
    loadHeaders envMissing (FileIterator.ctor envMissing inputFilePath) outputFilePath
      = loadHeaders envEmpty (FileIterator.ctor envEmpty inputFilePath) outputFilePath ∧
    ∀ (i : Nat) (line pre suf : Str),
      (splitLines (FileIterator.ctor envEmpty inputFilePath)).fileLines[i]? = some line →
      includeMarker <:+: line →
      line = pre ++ dquote :: path ++ dquote :: suf → dquote ∉ pre → dquote ∉ suf →
      ∃ out, loadHeaders envEmpty (FileIterator.ctor envEmpty inputFilePath) outputFilePath
          = some out ∧
        loadHeaders envMissing (FileIterator.ctor envMissing inputFilePath) outputFilePath
          = some out ∧
        out.self.result[i]? = some (errorPrefix ++ path) := by
  have hread : ∀ p, readFile envMissing p = readFile envEmpty p := by
    intro p
    by_cases hp : p = path
    · subst hp; simp [readFile, hmissing, hempty]
    · simp [readFile, hsame p hp]
  have heq := loadHeaders_congr envMissing envEmpty hread hwrite inputFilePath outputFilePath
  refine ⟨heq, ?_⟩
  intro i line pre suf hline hmarker hshape hpre hsuf
  rw [splitLines_ctor] at hline
  refine ⟨_, loadHeaders_ctor envEmpty inputFilePath outputFilePath, ?_, ?_⟩
  · rw [heq]; exact loadHeaders_ctor envEmpty inputFilePath outputFilePath
  · have hp := directivePath_of_shape line pre path suf hmarker hshape hpre hsuf
    have hrf : readFile envEmpty path = [] := by simp [readFile, hempty]
    simp [List.getElem?_map, hline, lineResult, hp, hrf]

/-- Witness of C5: `useempty.cpp` includes `empty.h`, which is missing in
`demoEnv` and an empty file in `withFile demoEnv "empty.h" ""`. -/
theorem empty_header_same_as_missing_witness :
    (loadHeaders demoEnv (FileIterator.ctor demoEnv "useempty.cpp".toList) "out.cpp".toList
      = loadHeaders (withFile demoEnv "empty.h".toList [])
          (FileIterator.ctor (withFile demoEnv "empty.h".toList []) "useempty.cpp".toList)
          "out.cpp".toList ∧
    ∀ (i : Nat) (line pre suf : Str),
      (splitLines (FileIterator.ctor (withFile demoEnv "empty.h".toList [])
          "useempty.cpp".toList)).fileLines[i]? = some line →
      includeMarker <:+: line →
      line = pre ++ dquote :: "empty.h".toList ++ dquote :: suf → dquote ∉ pre → dquote ∉ suf →
      ∃ out, loadHeaders (withFile demoEnv "empty.h".toList [])
          (FileIterator.ctor (withFile demoEnv "empty.h".toList []) "useempty.cpp".toList)
          "out.cpp".toList = some out ∧
        loadHeaders demoEnv (FileIterator.ctor demoEnv "useempty.cpp".toList) "out.cpp".toList
          = some out ∧
        out.self.result[i]? = some (errorPrefix ++ "empty.h".toList)) ∧
    (loadHeaders (withFile demoEnv "empty.h".toList [])
        (FileIterator.ctor (withFile demoEnv "empty.h".toList []) "useempty.cpp".toList)
        "out.cpp".toList).map (fun out => out.written)
      = some (some "int y;\n// Error: Could not include empty.h\n".toList) :=
  ⟨empty_header_same_as_missing demoEnv (withFile demoEnv "empty.h".toList []) "empty.h".toList
      "useempty.cpp".toList "out.cpp".toList (by decide) (by decide)
      (fun p hp => by unfold withFile; exact (if_neg hp).symm) rfl,
    by decide⟩

/-- C6: inlining is single-level. When the header named by a directive line has
the content `before ++ nested ++ after` (`nested` being, for instance, a line
`#include "b.h"`), the result element at the position of the line is that
content verbatim, whatever the file system holds for other paths; the written
text contains the content followed by a newline as one block; and the only
paths handed to `readFile` are those extracted from lines of the document
itself. -/
theorem nested_directives_verbatim (env : Env) (inputFilePath outputFilePath : Str) (i : Nat)
    (line pre path suf before nested after : Str)
    (hline : (splitLines (FileIterator.ctor env inputFilePath)).fileLines[i]? = some line)
    (hmarker : includeMarker <:+: line)
    (hshape : line = pre ++ dquote :: path ++ dquote :: suf)
    (hpre : dquote ∉ pre) (hsuf : dquote ∉ suf)
    (hopen : env.openRead path = some (before ++ nested ++ after))
    (hne : nested ≠ []) :
    ∃ out, loadHeaders env (FileIterator.ctor env inputFilePath) outputFilePath = some out ∧
      out.self.result[i]? = some (before ++ nested ++ after) ∧
      (∀ w, out.written = some w → (before ++ nested ++ after ++ [newline]) <:+: w) ∧
      (∀ p ∈ out.lookups, ∃ l ∈ out.self.fileLines, directivePath l = some p) := by
  rw [splitLines_ctor] at hline
  have hp := directivePath_of_shape line pre path suf hmarker hshape hpre hsuf
  have hrf : readFile env path = before ++ nested ++ after := by simp [readFile, hopen]
  have hcontent : before ++ nested ++ after ≠ [] := by simp [hne]
  have hres : ((getlineLoop (readFile env inputFilePath) []).map (lineResult env))[i]?
      = some (before ++ nested ++ after) := by
    rw [List.getElem?_map, hline]
    simp only [Option.map_some', lineResult, hp, hrf]
    rw [if_pos hcontent]
  refine ⟨_, loadHeaders_ctor env inputFilePath outputFilePath, hres, ?_, ?_⟩
  · intro w hw
    by_cases hopenw : env.openWrite outputFilePath = true
    · simp only [hopenw, if_true, Option.some.injEq] at hw
      subst hw
      have hmem : (before ++ nested ++ after ++ [newline]) ∈
          ((getlineLoop (readFile env inputFilePath) []).map (lineResult env)).map
            (fun r => r ++ [newline]) :=
        List.mem_map.2 ⟨_, List.getElem?_mem hres, rfl⟩
      exact List.infix_of_mem_flatten hmem
    · simp [hopenw] at hw
  · intro p hp2
    simp only [List.mem_filterMap] at hp2
    exact hp2

/-- Witness of C6: `nested.cpp` includes `outer.h`, whose first line is
`#include "b.h"`; that line is written out as it stands although `b.h` opens,
and `outer.h` is the only file looked up. -/
theorem nested_directives_verbatim_witness :
    (∃ out, loadHeaders demoEnv (FileIterator.ctor demoEnv "nested.cpp".toList)
        "out.cpp".toList = some out ∧
      out.self.result[0]? = some ([] ++ "#include \"b.h\"".toList ++ "\nint o;\n".toList) ∧
      (∀ w, out.written = some w →
        ([] ++ "#include \"b.h\"".toList ++ "\nint o;\n".toList ++ [newline]) <:+: w) ∧
      (∀ p ∈ out.lookups, ∃ l ∈ out.self.fileLines, directivePath l = some p)) ∧
    (loadHeaders demoEnv (FileIterator.ctor demoEnv "nested.cpp".toList)
        "out.cpp".toList).map (fun out => (out.written, out.lookups))
      = some (some "#include \"b.h\"\nint o;\n\n".toList, ["outer.h".toList]) :=
  ⟨nested_directives_verbatim demoEnv "nested.cpp".toList "out.cpp".toList 0
      "#include \"outer.h\"".toList "#include ".toList "outer.h".toList []
      [] "#include \"b.h\"".toList "\nint o;\n".toList
      (by decide) ((find_isSome_iff _ _).1 (by decide)) (by decide) (by decide) (by decide)
      (by decide) (by decide),
    by decide⟩

/-- C7: when the output path opens, the text written is the concatenation, in
the order of the input lines, of each result element followed by exactly one
newline character; the result sequence holds one element per input line, in
order, none dropped, duplicated or moved. -/
theorem written_is_joined_result (env : Env) (inputFilePath outputFilePath : Str)
    (hopen : env.openWrite outputFilePath = true) :
    ∃ out, loadHeaders env (FileIterator.ctor env inputFilePath) outputFilePath = some out ∧
      out.written = some (out.self.result.map (fun r => r ++ [newline])).flatten ∧
      out.self.result = out.self.fileLines.map (lineResult env) := by
  refine ⟨_, loadHeaders_ctor env inputFilePath outputFilePath, ?_, rfl⟩
  simp [hopen]

/-- Witness of C7: the lines `#include "a.h"` and `int main(){}`, with `a.h`
holding `void f();`, give the output text `void f();\nint main(){}\n`. -/
theorem written_is_joined_result_witness :
    (∃ out, loadHeaders demoEnv (FileIterator.ctor demoEnv "main.cpp".toList)
        "out.cpp".toList = some out ∧
      out.written = some (out.self.result.map (fun r => r ++ [newline])).flatten ∧
      out.self.result = out.self.fileLines.map (lineResult demoEnv)) ∧
    (loadHeaders demoEnv (FileIterator.ctor demoEnv "main.cpp".toList)
        "out.cpp".toList).map (fun out => (out.self.fileLines, out.written))
      = some (["#include \"a.h\"".toList, "int main()\x7b\x7d".toList],
          some "void f();\nint main()\x7b\x7d\n".toList) :=
  ⟨written_is_joined_result demoEnv "main.cpp".toList "out.cpp".toList (by decide), by decide⟩

/-- C8: if the input file is empty or cannot be opened, the document has no
line, the result sequence is empty, no header is looked up, and the text
written to the output file is empty (nothing at all is written when the output
path does not open). -/
theorem empty_input_empty_output (env : Env) (inputFilePath outputFilePath : Str)
    (hinput : env.openRead inputFilePath = none ∨ env.openRead inputFilePath = some []) :
    ∃ out, loadHeaders env (FileIterator.ctor env inputFilePath) outputFilePath = some out ∧
      out.self.fileLines = [] ∧ out.self.result = [] ∧ out.lookups = [] ∧
      out.written = if env.openWrite outputFilePath then some [] else none := by
  have hrf : readFile env inputFilePath = [] := by
    rcases hinput with h | h <;> simp [readFile, h]
  refine ⟨_, loadHeaders_ctor env inputFilePath outputFilePath, ?_, ?_, ?_, ?_⟩ <;>
    simp [hrf, getlineLoop]

/-- Witness of C8: `absent.cpp` does not open in `demoEnv`; the output is
empty. -/
theorem empty_input_empty_output_witness :
    ∃ out, loadHeaders demoEnv (FileIterator.ctor demoEnv "absent.cpp".toList)
        "out.cpp".toList = some out ∧
      out.self.fileLines = [] ∧ out.self.result = [] ∧ out.lookups = [] ∧
      out.written = if demoEnv.openWrite "out.cpp".toList then some [] else none :=
  empty_input_empty_output demoEnv "absent.cpp".toList "out.cpp".toList (Or.inl (by decide))

/-- C9: one call of `loadHeaders` on a freshly constructed object returns with
as many result elements as the document has lines; the element at position `i`
is `lineResult env` of the line at position `i`; and it depends on that line
alone: whenever another document has the same line at a position `j`, its
result element at `j` is the same. -/
theorem one_result_per_line (env : Env) (inputFilePath outputFilePath : Str) :
    ∃ out, loadHeaders env (FileIterator.ctor env inputFilePath) outputFilePath = some out ∧
      out.self.fileLines = (splitLines (FileIterator.ctor env inputFilePath)).fileLines ∧
      out.self.result.length = out.self.fileLines.length ∧
      (∀ i : Nat, out.self.result[i]? = (out.self.fileLines[i]?).map (lineResult env)) ∧
      (∀ (inputFilePath2 outputFilePath2 : Str) (out2 : Outcome) (i j : Nat),
        loadHeaders env (FileIterator.ctor env inputFilePath2) outputFilePath2 = some out2 →
        out.self.fileLines[i]? = out2.self.fileLines[j]? →
        out.self.result[i]? = out2.self.result[j]?) := by
  refine ⟨_, loadHeaders_ctor env inputFilePath outputFilePath, ?_, ?_, ?_, ?_⟩
  · rw [splitLines_ctor]
  · simp
  · intro i; simp [List.getElem?_map]
  · intro inp2 outp2 out2 i j h2 hij
    rw [loadHeaders_ctor] at h2
    simp only [Option.some.injEq] at h2
    subst h2
    simp only [List.getElem?_map] at hij ⊢
    rw [hij]

/-- Counterexample to C10 as stated: for the input `a\r\nb\r\n` the stored
lines are `a\r` and `b\r`; each keeps the `\r` of its terminator. -/
theorem crlf_keeps_carriage_return :
    (splitLines (FileIterator.ctor demoEnv "crlf.cpp".toList)).fileLines
      = ["a\r".toList, "b\r".toList] ∧
    ∃ l ∈ (splitLines (FileIterator.ctor demoEnv "crlf.cpp".toList)).fileLines,
      l.getLast? = some carriageReturn :=
  ⟨by decide, "a\r".toList, by decide, by decide⟩

/-- C10 (amended): splitting drops the `\n` terminators and nothing else, for
every input text. No stored line contains a `\n`; for an input made of lines
each terminated by `\r\n`, every stored line is the text of the line followed
by the `\r`; the stored lines, each followed by a `\n`, concatenate to the
input text (with one `\n` appended when the text is not empty and does not end
with one); and whenever the text is a sequence of `\n`-terminated lines
followed by a last piece without terminator, the stored lines are exactly those
lines, followed by the last piece when it is not empty. -/
theorem split_drops_newline_only (env : Env) (inputFilePath : Str) :
    (∀ l ∈ (splitLines (FileIterator.ctor env inputFilePath)).fileLines, newline ∉ l) ∧
    (∀ ls : List Str, (∀ l ∈ ls, newline ∉ l) →
      env.openRead inputFilePath
        = some (ls.map (fun l => l ++ [carriageReturn, newline])).flatten →
      (splitLines (FileIterator.ctor env inputFilePath)).fileLines
        = ls.map (fun l => l ++ [carriageReturn])) ∧
    (((splitLines (FileIterator.ctor env inputFilePath)).fileLines.map
        (fun l => l ++ [newline])).flatten
      = if (FileIterator.ctor env inputFilePath).fileContents = [] ∨
            (FileIterator.ctor env inputFilePath).fileContents.getLast? = some newline
        then (FileIterator.ctor env inputFilePath).fileContents
        else (FileIterator.ctor env inputFilePath).fileContents ++ [newline]) ∧
    (∀ (ls : List Str) (last : Str), (∀ l ∈ ls, newline ∉ l) → newline ∉ last →
      (FileIterator.ctor env inputFilePath).fileContents
        = (ls.map (fun l => l ++ [newline])).flatten ++ last →
      (splitLines (FileIterator.ctor env inputFilePath)).fileLines
        = ls ++ (if last = [] then [] else [last])) := by
  rw [splitLines_ctor, ctor_fileContents]
  refine ⟨fun l hl => mem_getlineLoop_no_newline _ l hl, ?_, ?_, ?_⟩
  · intro ls hls hopen
    have hrf : readFile env inputFilePath
        = (ls.map (fun l => l ++ [carriageReturn, newline])).flatten := by
      simp [readFile, hopen]
    rw [hrf, getlineLoop_crlf ls hls]
  · rw [join_getlineLoop]
    simp
  · intro ls last hls hlast hcontents
    rw [hcontents, getlineLoop_join ls last hls hlast]

/-- Witness of C10 (amended): `crlf.cpp` holds the lines `a` and `b`, each
terminated by `\r\n`; the stored lines are `a\r` and `b\r`. `main.cpp` holds
one terminated line and a last line without terminator; both are stored. -/
theorem split_drops_newline_only_witness :
    (∀ l ∈ (splitLines (FileIterator.ctor demoEnv "crlf.cpp".toList)).fileLines, newline ∉ l) ∧
    (splitLines (FileIterator.ctor demoEnv "crlf.cpp".toList)).fileLines
        = ["a".toList, "b".toList].map (fun l => l ++ [carriageReturn]) ∧
    (splitLines (FileIterator.ctor demoEnv "main.cpp".toList)).fileLines
        = ["#include \"a.h\"".toList] ++
          (if "int main()\x7b\x7d".toList = [] then [] else ["int main()\x7b\x7d".toList]) :=
  ⟨(split_drops_newline_only demoEnv "crlf.cpp".toList).1,
    (split_drops_newline_only demoEnv "crlf.cpp".toList).2.1 ["a".toList, "b".toList]
      (by decide) (by decide),
    (split_drops_newline_only demoEnv "main.cpp".toList).2.2.2 ["#include \"a.h\"".toList]
      "int main()\x7b\x7d".toList (by decide) (by decide) (by decide)⟩

/-- C11: a line that contains `#include` and at least two double quotes is
`pre ++ '"' :: path ++ '"' :: suf` with no double quote in `pre` nor in `suf`
(so the quotes shown are the first, at index `pre.length`, and the last), and
the path that the iteration hands to `readFile` is exactly `path`; any
splitting of the line of that shape has the same `path`. -/
theorem lookup_path_between_quotes (env : Env) (st : LoopState) (line : Str)
    (hmarker : includeMarker <:+: line) (hquotes : 2 ≤ line.count dquote) :
    ∃ pre path suf, line = pre ++ dquote :: path ++ dquote :: suf ∧
      dquote ∉ pre ∧ dquote ∉ suf ∧
      findChar line dquote = some pre.length ∧
      rfindChar line dquote = some (pre.length + 1 + path.length) ∧
      (∃ st1, loopBody env st line = some st1 ∧ st1.lookups = st.lookups ++ [path]) ∧
      (∀ pre2 path2 suf2 : Str, line = pre2 ++ dquote :: path2 ++ dquote :: suf2 →
        dquote ∉ pre2 → dquote ∉ suf2 → path2 = path) := by
  obtain ⟨pre, path, suf, hshape, hpre, hsuf⟩ := exists_quote_shape line dquote hquotes
  have hp := directivePath_of_shape line pre path suf hmarker hshape hpre hsuf
  refine ⟨pre, path, suf, hshape, hpre, hsuf, ?_, ?_, ?_, ?_⟩
  · rw [hshape, List.append_assoc]
    exact findChar_append pre _ dquote hpre
  · have h1 := rfindChar_append (pre ++ dquote :: path) suf dquote hsuf
    have hl : (pre ++ dquote :: path).length = pre.length + 1 + path.length := by
      simp only [List.length_append, List.length_cons]; omega
    rw [hl] at h1
    rw [hshape]
    simpa using h1
  · refine ⟨_, loopBody_eq env st line, ?_⟩
    simp [hp]
  · intro pre2 path2 suf2 hshape2 hpre2 hsuf2
    have hp2 := directivePath_of_shape line pre2 path2 suf2 hmarker hshape2 hpre2 hsuf2
    rw [hp] at hp2
    exact (Option.some.inj hp2).symm

/-- Witness of C11: the line `#include "a"b" // x` has three double quotes; the
path looked up is `a"b`, which holds the middle one. -/
theorem lookup_path_between_quotes_witness :
    (∃ pre path suf, "#include \"a\"b\" // x".toList = pre ++ dquote :: path ++ dquote :: suf ∧
      dquote ∉ pre ∧ dquote ∉ suf ∧
      findChar "#include \"a\"b\" // x".toList dquote = some pre.length ∧
      rfindChar "#include \"a\"b\" // x".toList dquote = some (pre.length + 1 + path.length) ∧
      (∃ st1, loopBody quotesEnv { result := [], lookups := [] } "#include \"a\"b\" // x".toList
          = some st1 ∧
        st1.lookups = [] ++ [path]) ∧
      (∀ pre2 path2 suf2 : Str,
        "#include \"a\"b\" // x".toList = pre2 ++ dquote :: path2 ++ dquote :: suf2 →
        dquote ∉ pre2 → dquote ∉ suf2 → path2 = path)) ∧
    (loadHeaders quotesEnv (FileIterator.ctor quotesEnv "quotes.cpp".toList)
        "out.cpp".toList).map (fun out => (out.lookups, out.written))
      = some (["a\"b".toList], some "int q;\n\n".toList) :=
  ⟨lookup_path_between_quotes quotesEnv { result := [], lookups := [] }
      "#include \"a\"b\" // x".toList ((find_isSome_iff _ _).1 (by decide)) (by decide),
    by decide⟩

/-- Counterexample to C12 as stated: in the line `"a.h" #include` the marker is
at index 6 and the two quotes are at indices 0 and 4, before it; the line is
replaced all the same by the content of `a.h`. -/
theorem quotes_before_marker_replaced :
    find "\"a.h\" #include".toList includeMarker = some 6 ∧
    findChar "\"a.h\" #include".toList dquote = some 0 ∧
    rfindChar "\"a.h\" #include".toList dquote = some 4 ∧
    (loadHeaders reversedEnv (FileIterator.ctor reversedEnv "reversed.cpp".toList)
        "out.cpp".toList).map (fun out => (out.self.fileLines, out.self.result, out.lookups))
      = some (["\"a.h\" #include".toList], ["void f();".toList], ["a.h".toList]) := by
  decide

/-- C12 (amended): a line is treated as an include directive (its path handed
to `readFile`, the line replaced by the header content or by the error
comment) exactly when it contains the marker `#include` somewhere and has at
least two double quotes, wherever the quotes stand with respect to the marker;
every other line is kept and nothing is looked up for it. The path of a
directive is the text between the first and the last double quote: the line is
`pre ++ '"' :: path ++ '"' :: suf` with no double quote in `pre` nor in `suf`,
in the one direction (such a line with the marker is replaced through `path`)
and in the other (whenever an iteration looks something up, it is such a
`path`). -/
theorem directive_iff_marker_and_two_quotes (env : Env) (st : LoopState) (line : Str) :
    ((∃ path, loopBody env st line = some {
          result := st.result ++
            [if readFile env path ≠ [] then readFile env path else errorPrefix ++ path]
          lookups := st.lookups ++ [path] }) ↔
      (includeMarker <:+: line ∧ 2 ≤ line.count dquote)) ∧
    (¬ (includeMarker <:+: line ∧ 2 ≤ line.count dquote) →
      loopBody env st line = some { result := st.result ++ [line], lookups := st.lookups }) ∧
    ((includeMarker <:+: line ∧ 2 ≤ line.count dquote) →
      ∃ pre path suf, line = pre ++ dquote :: path ++ dquote :: suf ∧
        dquote ∉ pre ∧ dquote ∉ suf ∧
        loopBody env st line = some {
          result := st.result ++
            [if readFile env path ≠ [] then readFile env path else errorPrefix ++ path]
          lookups := st.lookups ++ [path] }) ∧
    (∀ st1 : LoopState, loopBody env st line = some st1 → st1.lookups ≠ st.lookups →
      ∃ pre path suf, line = pre ++ dquote :: path ++ dquote :: suf ∧
        dquote ∉ pre ∧ dquote ∉ suf ∧
        st1.result = st.result ++
          [if readFile env path ≠ [] then readFile env path else errorPrefix ++ path] ∧
        st1.lookups = st.lookups ++ [path]) := by
  have hshape : (includeMarker <:+: line ∧ 2 ≤ line.count dquote) →
      ∃ pre path suf, line = pre ++ dquote :: path ++ dquote :: suf ∧
        dquote ∉ pre ∧ dquote ∉ suf ∧ directivePath line = some path := by
    rintro ⟨hm, hc⟩
    obtain ⟨pre, path, suf, hs, hpre, hsuf⟩ := exists_quote_shape line dquote hc
    exact ⟨pre, path, suf, hs, hpre, hsuf,
      directivePath_of_shape line pre path suf hm hs hpre hsuf⟩
  refine ⟨?_, ?_, ?_, ?_⟩
  · rw [← directivePath_isSome_iff, loopBody_eq]
    constructor
    · rintro ⟨path, h⟩
      simp only [Option.some.injEq, LoopState.mk.injEq, List.append_cancel_left_eq] at h
      cases hd : directivePath line with
      | none => simp [hd] at h
      | some p => rfl
    · intro h
      cases hd : directivePath line with
      | none => simp [hd] at h
      | some p =>
        refine ⟨p, ?_⟩
        simp [lineResult, hd]
  · intro h
    rw [← directivePath_isSome_iff] at h
    have hd : directivePath line = none := by
      cases hd : directivePath line with
      | none => rfl
      | some p => simp [hd] at h
    rw [loopBody_eq]
    simp [lineResult, hd]
  · intro h
    obtain ⟨pre, path, suf, hs, hpre, hsuf, hd⟩ := hshape h
    refine ⟨pre, path, suf, hs, hpre, hsuf, ?_⟩
    rw [loopBody_eq]
    simp [lineResult, hd]
  · intro st1 h hne
    rw [loopBody_eq] at h
    have h1 := (Option.some.inj h).symm
    subst h1
    cases hd : directivePath line with
    | none => simp [hd] at hne
    | some p =>
      have hsome : (directivePath line).isSome = true := by simp [hd]
      obtain ⟨pre, path, suf, hs, hpre, hsuf, hd2⟩ :=
        hshape ((directivePath_isSome_iff line).1 hsome)
      have hp : path = p := by
        rw [hd] at hd2
        exact (Option.some.inj hd2).symm
      subst hp
      refine ⟨pre, path, suf, hs, hpre, hsuf, ?_, ?_⟩
      · simp [lineResult, hd]
      · simp

/-- Witness of C12 (amended): the line `"a.h" #include` holds the marker and
two double quotes, both before the marker; it is replaced through the path
between them, `a.h`. -/
theorem directive_iff_marker_and_two_quotes_witness :
    (∃ pre path suf, "\"a.h\" #include".toList = pre ++ dquote :: path ++ dquote :: suf ∧
      dquote ∉ pre ∧ dquote ∉ suf ∧
      loopBody reversedEnv { result := [], lookups := [] } "\"a.h\" #include".toList = some {
        result := [] ++
          [if readFile reversedEnv path ≠ [] then readFile reversedEnv path
           else errorPrefix ++ path]
        lookups := [] ++ [path] }) ∧
    (loopBody reversedEnv { result := [], lookups := [] } "\"a.h\" #include".toList).map
        (fun st1 => (st1.result, st1.lookups))
      = some (["void f();".toList], ["a.h".toList]) :=
  ⟨(directive_iff_marker_and_two_quotes reversedEnv { result := [], lookups := [] }
      "\"a.h\" #include".toList).2.2.1 ⟨(find_isSome_iff _ _).1 (by decide), by decide⟩,
    by decide⟩

/-- C13: with `argc < 2` the program returns 1 and neither reads nor writes a
file. With one positional argument it returns 0 after `loadHeaders` has run on
the first argument with the output path `output.cpp`; with two or more, after
`loadHeaders` has run with the second argument as output path. -/
theorem main_exit_status (env : Env) (argv : List Str) :
    (argv.length < 2 →
      main env argv = some { exitCode := 1, opened := [], outputPath := none, written := none }) ∧
    (∀ prog input : Str, argv = [prog, input] →
      ∃ out, loadHeaders env (FileIterator.ctor env input) "output.cpp".toList = some out ∧
        main env argv = some { exitCode := 0, opened := input :: out.lookups,
                               outputPath := some "output.cpp".toList, written := out.written }) ∧
    (∀ (prog input output : Str) (rest : List Str), argv = prog :: input :: output :: rest →
      ∃ out, loadHeaders env (FileIterator.ctor env input) output = some out ∧
        main env argv = some { exitCode := 0, opened := input :: out.lookups,
                               outputPath := some output, written := out.written }) := by
  refine ⟨?_, ?_, ?_⟩
  · intro h
    simp [main, h]
  · intro prog input h
    subst h
    refine ⟨_, loadHeaders_ctor env input _, ?_⟩
    simp [main, loadHeaders_ctor]
  · intro prog input output rest h
    subst h
    refine ⟨_, loadHeaders_ctor env input _, ?_⟩
    simp [main, loadHeaders_ctor]

/-- Witness of C13: no argument gives 1 and touches no file; `chpc main.cpp`
writes `output.cpp` and gives 0; `chpc main.cpp out.cpp` writes `out.cpp` and
gives 0. -/
theorem main_exit_status_witness :
    main demoEnv ["chpc".toList]
      = some { exitCode := 1, opened := [], outputPath := none, written := none } ∧
    main demoEnv ["chpc".toList, "main.cpp".toList]
      = some { exitCode := 0, opened := ["main.cpp".toList, "a.h".toList],
               outputPath := some "output.cpp".toList,
               written := some "void f();\nint main()\x7b\x7d\n".toList } ∧
    ∃ out, loadHeaders demoEnv (FileIterator.ctor demoEnv "main.cpp".toList) "out.cpp".toList
        = some out ∧
      main demoEnv ["chpc".toList, "main.cpp".toList, "out.cpp".toList]
        = some { exitCode := 0, opened := "main.cpp".toList :: out.lookups,
                 outputPath := some "out.cpp".toList, written := out.written } :=
  ⟨(main_exit_status demoEnv ["chpc".toList]).1 (by decide), by decide,
    (main_exit_status demoEnv ["chpc".toList, "main.cpp".toList, "out.cpp".toList]).2.2
      "chpc".toList "main.cpp".toList "out.cpp".toList [] rfl⟩

/-- Counterexample to C14 as stated: `out.cpp` does not open for writing in
`readOnlyEnv`, nothing is written, and `main` returns 0, the success status. -/
theorem unwritable_output_returns_zero :
    readOnlyEnv.openWrite "out.cpp".toList = false ∧
    main readOnlyEnv ["chpc".toList, "main.cpp".toList, "out.cpp".toList]
      = some { exitCode := 0, opened := ["main.cpp".toList, "a.h".toList],
               outputPath := some "out.cpp".toList, written := none } := by
  decide

/-- C14 (amended): when the output path (`argv[2]` when `argc > 2`, and
`output.cpp` otherwise) cannot be opened for writing, nothing is written to the
output and the run ends by returning from `main`; the status returned is 0, as
on success. -/
theorem unwritable_output_nothing_written (env : Env) (argv : List Str) (outputFilePath : Str)
    (hargs : 2 ≤ argv.length)
    (houtput : outputFilePath
      = if argv.length > 2 then argv.getD 2 [] else "output.cpp".toList)
    (hclosed : env.openWrite outputFilePath = false) :
    ∃ run, main env argv = some run ∧
      run.outputPath = some outputFilePath ∧ run.written = none ∧ run.exitCode = 0 := by
  rw [houtput] at hclosed
  refine ⟨_, main_eq env argv hargs, ?_, ?_, rfl⟩
  · rw [houtput]
  · show (if env.openWrite (if argv.length > 2 then argv.getD 2 [] else "output.cpp".toList)
        = true then _ else none) = none
    rw [hclosed]
    rfl

/-- Witness of C14 (amended): `chpc main.cpp out.cpp` in `readOnlyEnv`. -/
theorem unwritable_output_nothing_written_witness :
    ∃ run, main readOnlyEnv ["chpc".toList, "main.cpp".toList, "out.cpp".toList] = some run ∧
      run.outputPath = some "out.cpp".toList ∧ run.written = none ∧ run.exitCode = 0 :=
  unwritable_output_nothing_written readOnlyEnv
    ["chpc".toList, "main.cpp".toList, "out.cpp".toList] "out.cpp".toList
    (by decide) (by decide) (by decide)

/-- C15: path extraction never faults. Whenever both quotes are found and the
first index `o` is below the last index `c`: the start index `o + 1` is at most
the length of the line; `c - o - 1` is non-negative as an integer; start plus
length stays within the line; on a line shorter than `2 ^ 64` the 64-bit
unsigned computations of `o + 1` and of `c - o - 1` give these exact values;
and `substr` returns a string of exactly `c - o - 1` characters. No iteration
of the loop and no call of `loadHeaders`, on any object, output path and file
system, ends in an exception. -/
theorem path_extraction_in_bounds :
    (∀ (line : Str) (o c : Nat),
      findChar line dquote = some o → rfindChar line dquote = some c → o < c →
        o + 1 ≤ line.length ∧
        0 ≤ (c : Int) - (o : Int) - 1 ∧
        (o + 1) + (c - o - 1) ≤ line.length ∧
        (line.length < 2 ^ 64 →
          (o + 1) % 2 ^ 64 = o + 1 ∧
          ((c + 2 ^ 64 - o) % 2 ^ 64 + 2 ^ 64 - 1) % 2 ^ 64 = c - o - 1) ∧
        ∃ path, substr line (o + 1) (c - o - 1) = some path ∧ path.length = c - o - 1) ∧
    (∀ (env : Env) (st : LoopState) (line : Str), ∃ st1, loopBody env st line = some st1) ∧
    (∀ (env : Env) (self : FileIterator) (outputFilePath : Str),
      ∃ out, loadHeaders env self outputFilePath = some out) := by
  refine ⟨?_, ?_, ?_⟩
  · intro line o c ho hc hlt
    have h1 := findChar_lt line dquote o ho
    have h2 := rfindChar_lt line dquote c hc
    refine ⟨by omega, by omega, by omega, fun hlen => by omega, ?_⟩
    refine ⟨(line.drop (o + 1)).take (c - o - 1), ?_, ?_⟩
    · unfold substr
      rw [if_neg (by omega)]
    · simp only [List.length_take, List.length_drop]
      omega
  · intro env st line
    exact ⟨_, loopBody_eq env st line⟩
  · intro env self outputFilePath
    exact ⟨_, loadHeaders_eq env self outputFilePath⟩

/-- Witness of C15: in `#include "a.h"` the quotes are at 9 and 13; the
substring call is `substr(10, 3)` and returns `a.h`. -/
theorem path_extraction_in_bounds_witness :
    (10 ≤ "#include \"a.h\"".toList.length ∧
      0 ≤ ((13 : Nat) : Int) - ((9 : Nat) : Int) - 1 ∧
      (9 + 1) + (13 - 9 - 1) ≤ "#include \"a.h\"".toList.length ∧
      ("#include \"a.h\"".toList.length < 2 ^ 64 →
        (9 + 1) % 2 ^ 64 = 9 + 1 ∧
        ((13 + 2 ^ 64 - 9) % 2 ^ 64 + 2 ^ 64 - 1) % 2 ^ 64 = 13 - 9 - 1) ∧
      ∃ path, substr "#include \"a.h\"".toList (9 + 1) (13 - 9 - 1) = some path ∧
        path.length = 13 - 9 - 1) ∧
    substr "#include \"a.h\"".toList 10 3 = some "a.h".toList :=
  ⟨path_extraction_in_bounds.1 "#include \"a.h\"".toList 9 13 (by decide) (by decide)
      (by decide),
    by decide⟩

/-- C16: split-then-join round trip on plain documents. For an input text
without the substring `#include` and an output path that opens, the text
written is the input text when the input is empty or ends with a newline, and
the input text with one newline appended otherwise. -/
theorem plain_document_round_trip (env : Env) (inputFilePath outputFilePath contents : Str)
    (hcontents : (FileIterator.ctor env inputFilePath).fileContents = contents)
    (hplain : ¬ includeMarker <:+: contents)
    (hopen : env.openWrite outputFilePath = true) :
    ∃ out, loadHeaders env (FileIterator.ctor env inputFilePath) outputFilePath = some out ∧
      out.written = some
        (if contents = [] ∨ contents.getLast? = some newline then contents
         else contents ++ [newline]) := by
  rw [ctor_fileContents] at hcontents
  refine ⟨_, loadHeaders_ctor env inputFilePath outputFilePath, ?_⟩
  simp only [hopen, if_true, hcontents, map_lineResult_of_plain env contents hplain,
    join_getlineLoop, List.nil_append, and_true]

/-- Witness of C16: `plain.cpp` holds `int a;\nint b;` without a final
newline; the output is `int a;\nint b;\n`. -/
theorem plain_document_round_trip_witness :
    ∃ out, loadHeaders (withFile demoEnv "plain.cpp".toList "int a;\nint b;".toList)
        (FileIterator.ctor (withFile demoEnv "plain.cpp".toList "int a;\nint b;".toList)
          "plain.cpp".toList) "out.cpp".toList = some out ∧
      out.written = some
        (if "int a;\nint b;".toList = [] ∨ "int a;\nint b;".toList.getLast? = some newline
         then "int a;\nint b;".toList
         else "int a;\nint b;".toList ++ [newline]) :=
  plain_document_round_trip (withFile demoEnv "plain.cpp".toList "int a;\nint b;".toList)
    "plain.cpp".toList "out.cpp".toList "int a;\nint b;".toList
    (by decide) ((find_eq_none_iff _ _).1 (by decide)) (by decide)

/-- C17: an inlined header that ends with a newline keeps it and gets one more.
For a directive line at position `i` whose header content is `body` followed by
`\n`, the text written is the joined elements before position `i`, then the
content immediately followed by a further `\n`, then the joined elements after
position `i`; the block counts one newline more than the header content. -/
theorem inlined_header_extra_newline (env : Env) (inputFilePath outputFilePath : Str)
    (i : Nat) (line pre path suf body : Str)
    (hline : (splitLines (FileIterator.ctor env inputFilePath)).fileLines[i]? = some line)
    (hmarker : includeMarker <:+: line)
    (hshape : line = pre ++ dquote :: path ++ dquote :: suf)
    (hpre : dquote ∉ pre) (hsuf : dquote ∉ suf)
    (hheader : env.openRead path = some (body ++ [newline]))
    (hopen : env.openWrite outputFilePath = true) :
    ∃ out w, loadHeaders env (FileIterator.ctor env inputFilePath) outputFilePath = some out ∧
      out.self.result[i]? = some (body ++ [newline]) ∧
      out.written = some w ∧
      w = ((out.self.result.take i).map (fun r => r ++ [newline])).flatten ++
            (body ++ [newline] ++ [newline]) ++
          ((out.self.result.drop (i + 1)).map (fun r => r ++ [newline])).flatten ∧
      (body ++ [newline] ++ [newline]).count newline = (body ++ [newline]).count newline + 1 := by
  rw [splitLines_ctor] at hline
  have hp := directivePath_of_shape line pre path suf hmarker hshape hpre hsuf
  have hrf : readFile env path = body ++ [newline] := by simp [readFile, hheader]
  have hres : ((getlineLoop (readFile env inputFilePath) []).map (lineResult env))[i]?
      = some (body ++ [newline]) := by
    rw [List.getElem?_map, hline]
    simp only [Option.map_some', lineResult, hp, hrf]
    rw [if_pos (by simp)]
  have hsplit := split_at_index _ i _ hres
  refine ⟨_,
    (((getlineLoop (readFile env inputFilePath) []).map (lineResult env)).map
      (fun r => r ++ [newline])).flatten,
    loadHeaders_ctor env inputFilePath outputFilePath, hres, ?_, ?_, ?_⟩
  · simp only [hopen, if_true]
  · conv_lhs => rw [hsplit]
    simp only [List.map_append, List.map_cons, List.flatten_append, List.flatten_cons,
      List.append_assoc]
  · simp [List.count_append]

/-- Witness of C17: `trailing.cpp` includes `b.h`, which holds `int b;\n`; the
output has an empty line after `int b;`. -/
theorem inlined_header_extra_newline_witness :
    (∃ out w, loadHeaders trailingEnv (FileIterator.ctor trailingEnv "trailing.cpp".toList)
        "out.cpp".toList = some out ∧
      out.self.result[1]? = some ("int b;".toList ++ [newline]) ∧
      out.written = some w ∧
      w = ((out.self.result.take 1).map (fun r => r ++ [newline])).flatten ++
            ("int b;".toList ++ [newline] ++ [newline]) ++
          ((out.self.result.drop (1 + 1)).map (fun r => r ++ [newline])).flatten ∧
      ("int b;".toList ++ [newline] ++ [newline]).count newline
        = ("int b;".toList ++ [newline]).count newline + 1) ∧
    (loadHeaders trailingEnv (FileIterator.ctor trailingEnv "trailing.cpp".toList)
        "out.cpp".toList).map (fun out => out.written)
      = some (some "int p;\nint b;\n\nint r;\n".toList) :=
  ⟨inlined_header_extra_newline trailingEnv "trailing.cpp".toList "out.cpp".toList 1
      "#include \"b.h\"".toList "#include ".toList "b.h".toList [] "int b;".toList
      (by decide) ((find_isSome_iff _ _).1 (by decide)) (by decide) (by decide) (by decide)
      (by decide) (by decide),
    by decide⟩

/-- C18: `loadHeaders` is not repeatable on one object. After a first call on a
fresh object (`n` lines, result `R` of `n` elements), a second call on the
object it left, with the same file system, leaves the lines stored twice
(`2 * n`) and the result `R ++ R ++ R` (`3 * n` elements), which is what it
writes; for a document with at least one line this is not `R`. -/
theorem second_call_triples_result (env : Env)
    (inputFilePath outputFilePath1 outputFilePath2 : Str) :
    ∃ out1 out2,
      loadHeaders env (FileIterator.ctor env inputFilePath) outputFilePath1 = some out1 ∧
      loadHeaders env out1.self outputFilePath2 = some out2 ∧
      out1.self.result.length = out1.self.fileLines.length ∧
      out2.self.fileLines = out1.self.fileLines ++ out1.self.fileLines ∧
      out2.self.fileLines.length = 2 * out1.self.fileLines.length ∧
      out2.self.result = out1.self.result ++ out1.self.result ++ out1.self.result ∧
      out2.self.result.length = 3 * out1.self.fileLines.length ∧
      out2.written =
        (if env.openWrite outputFilePath2 then
          some ((out1.self.result ++ out1.self.result ++ out1.self.result).map
            (fun r => r ++ [newline])).flatten
         else none) ∧
      (out1.self.fileLines ≠ [] → out2.self.result ≠ out1.self.result) := by
  refine ⟨_, _, loadHeaders_ctor env inputFilePath outputFilePath1, loadHeaders_eq _ _ _,
    ?_, ?_, ?_, ?_, ?_, ?_, ?_⟩
  · simp
  · simp
  · simp only [List.length_append]; omega
  · simp [List.map_append]
  · simp only [List.length_append, List.length_map]; omega
  · simp [List.map_append]
  · intro hne heq
    have hlen := congrArg List.length heq
    simp only [List.length_append, List.length_map] at hlen
    have hpos : 0 < (getlineLoop (readFile env inputFilePath) []).length :=
      List.length_pos.2 hne
    omega

/-- Witness of C18: two calls on the object made from `main.cpp`; the second
writes the two output lines three times. -/
theorem second_call_triples_result_witness :
    (∃ out1 out2,
      loadHeaders demoEnv (FileIterator.ctor demoEnv "main.cpp".toList) "out.cpp".toList
        = some out1 ∧
      loadHeaders demoEnv out1.self "out.cpp".toList = some out2 ∧
      out1.self.result.length = out1.self.fileLines.length ∧
      out2.self.fileLines = out1.self.fileLines ++ out1.self.fileLines ∧
      out2.self.fileLines.length = 2 * out1.self.fileLines.length ∧
      out2.self.result = out1.self.result ++ out1.self.result ++ out1.self.result ∧
      out2.self.result.length = 3 * out1.self.fileLines.length ∧
      out2.written =
        (if demoEnv.openWrite "out.cpp".toList then
          some ((out1.self.result ++ out1.self.result ++ out1.self.result).map
            (fun r => r ++ [newline])).flatten
         else none) ∧
      (out1.self.fileLines ≠ [] → out2.self.result ≠ out1.self.result)) ∧
    ((loadHeaders demoEnv (FileIterator.ctor demoEnv "main.cpp".toList) "out.cpp".toList).bind
        (fun out1 => loadHeaders demoEnv out1.self "out.cpp".toList)).map
          (fun out2 => (out2.self.fileLines.length, out2.written))
      = some (4, some ("void f();\nint main()\x7b\x7d\nvoid f();\nint main()\x7b\x7d\n" ++
          "void f();\nint main()\x7b\x7d\n").toList) :=
  ⟨second_call_triples_result demoEnv "main.cpp".toList "out.cpp".toList "out.cpp".toList,
    by decide⟩

end CHPC
